import Mathlib

/-!
Verification of the WAF rule-synchronization engine found under
`src/python_script/automation`.  Rule texts, store contents and identifiers
are modelled as `List Char`; the Python regular-expression operations used by
the code are embedded as explicit scanning functions over character lists
(ASCII inputs; the specific patterns of the source are hard-coded, matching
`re.search` / `re.sub` / `re.finditer` semantics for those patterns).
-/

namespace Modlek

/-- Single-quote character (ASCII 39), written by code point to keep rule
literals readable. -/
def quoteC : Char := Char.ofNat 39

/-- Python whitespace class `\s` restricted to its ASCII members
(space, tab, newline, carriage return, vertical tab, form feed). -/
def isSpaceC (c : Char) : Bool :=
  c = ' ' || c = '\t' || c = '\n' || c = '\r' || c = Char.ofNat 11 || c = Char.ofNat 12

/-- Python word class `\w` restricted to ASCII: letters, digits, underscore. -/
def isWordC (c : Char) : Bool := c.isAlphanum || c = '_'

/-- Embeds Python `str.strip()` (ASCII whitespace). -/
def pstrip (l : List Char) : List Char :=
  ((l.dropWhile isSpaceC).reverse.dropWhile isSpaceC).reverse

/-- Embeds Python `str.lower()` for ASCII text. -/
def lowerL (l : List Char) : List Char := l.map Char.toLower

/-- Embeds Python `str.splitlines()` for the line endings `\n`, `\r\n`, `\r`. -/
def splitlinesGo (acc : List Char) : List Char → List (List Char)
  | [] => if acc = [] then [] else [acc.reverse]
  | '\n' :: rest => acc.reverse :: splitlinesGo [] rest
  | '\r' :: '\n' :: rest => acc.reverse :: splitlinesGo [] rest
  | '\r' :: rest => acc.reverse :: splitlinesGo [] rest
  | c :: rest => splitlinesGo (c :: acc) rest

/-- Split a text into its lines, Python `splitlines` style (no trailing empty
line for a trailing terminator). -/
def splitlines (l : List Char) : List (List Char) := splitlinesGo [] l

/-- Embeds Python `"\n".join(buffer)`. -/
def joinNL : List (List Char) → List Char
  | [] => []
  | [x] => x
  | x :: xs => x ++ '\n' :: joinNL xs

/-- Embeds the Python substring test `pat in content`. -/
def subL (p : List Char) : List Char → Bool
  | [] => p.isPrefixOf []
  | x :: xs => p.isPrefixOf (x :: xs) || subL p xs

/-- Embeds a Python `set` as an insertion-ordered duplicate-free list:
`set.add`. -/
def insertIfAbsent (a : List Char) (s : List (List Char)) : List (List Char) :=
  if a ∈ s then s else s ++ [a]

/-- Embeds Python `dict` assignment `d[k] = v`: the value at an existing key
is replaced in place, a fresh key is appended (insertion order). -/
def dictInsert {V : Type} (k : List Char) (v : V) :
    List (List Char × V) → List (List Char × V)
  | [] => [(k, v)]
  | (k0, v0) :: t => if k0 = k then (k, v) :: t else (k0, v0) :: dictInsert k v t

/-- Embeds Python `k in d` for a dict modelled as an association list. -/
def hasKey {V : Type} (k : List Char) : List (List Char × V) → Bool
  | [] => false
  | (k0, _) :: t => k0 = k || hasKey k t

/-- Embeds Python `d[k]` for a dict modelled as an association list. -/
def lookupD {V : Type} (k : List Char) : List (List Char × V) → Option V
  | [] => none
  | (k0, v0) :: t => if k0 = k then some v0 else lookupD k t

/-! ### Matchers for the regular expressions appearing in the source

Each matcher tries the pattern at the start of its input and returns the
captured group together with the residue after the whole match; `re.search`
is then "first position where the matcher succeeds" and `re.sub` is
"replace at every successful position, resuming after the match". -/

/-- Literal prefix of the pattern `id:(\d+)` (`file_operations.py`,
`modsec_rule_updater.py`, and the substitution in `rule_processor.py`). -/
def idColonLit : List Char := "id:".data

/-- Matcher for `id:(\d+)` at the start of the input: returns the digit
group and the residue after the match. -/
def matchIdColon (l : List Char) : Option (List Char × List Char) :=
  if idColonLit.isPrefixOf l then
    let rest := l.drop idColonLit.length
    let ds := rest.takeWhile Char.isDigit
    if ds = [] then none else some (ds, rest.dropWhile Char.isDigit)
  else none

/-- Matcher for `id\s*:\s*(\d+)` at the start of the input
(`rule_processor.py` line 76). -/
def matchIdDecl (l : List Char) : Option (List Char × List Char) :=
  if "id".data.isPrefixOf l then
    let r1 := (l.drop 2).dropWhile isSpaceC
    match r1 with
    | ':' :: r2 =>
      let r3 := r2.dropWhile isSpaceC
      let ds := r3.takeWhile Char.isDigit
      if ds = [] then none else some (ds, r3.dropWhile Char.isDigit)
    | _ => none
  else none

/-- Literal prefix of the severity pattern: `severity:'`. -/
def sevLit : List Char := "severity:".data ++ [quoteC]

/-- Matcher for `severity:'(\w+)` at the start of the input
(`rule_processor.py` line 13). -/
def matchSev (l : List Char) : Option (List Char × List Char) :=
  if sevLit.isPrefixOf l then
    let rest := l.drop sevLit.length
    let w := rest.takeWhile isWordC
    if w = [] then none else some (w, rest.dropWhile isWordC)
  else none

/-- Literal prefix of the paranoia-level tag pattern: `tag:'paranoia-level/`. -/
def plLit : List Char := "tag:".data ++ [quoteC] ++ "paranoia-level/".data

/-- Matcher for `tag:'paranoia-level/([34])'` at the start of the input
(`rule_processor.py` lines 14 and 75). -/
def matchPL (l : List Char) : Option (Char × List Char) :=
  if plLit.isPrefixOf l then
    match l.drop plLit.length with
    | c :: c2 :: rest =>
      if (c = '3' || c = '4') && c2 = quoteC then some (c, rest) else none
    | _ => none
  else none

/-- Matcher for the provenance-comment pattern
`# Rule \d+ \(Original: (\d+)\)` (`file_operations.py` line 46): returns the
captured original identifier. -/
def matchProv (l : List Char) : Option (List Char) :=
  if "# Rule ".data.isPrefixOf l then
    let r1 := l.drop 7
    let d1 := r1.takeWhile Char.isDigit
    if d1 = [] then none else
    let r2 := r1.dropWhile Char.isDigit
    if " (Original: ".data.isPrefixOf r2 then
      let r3 := r2.drop 12
      let d2 := r3.takeWhile Char.isDigit
      if d2 = [] then none else
      match r3.dropWhile Char.isDigit with
      | ')' :: _ => some d2
      | _ => none
    else none
  else none

/-- Literal head of the anomaly-score increment pattern:
`setvar:'tx.inbound_anomaly_score_pl`. -/
def incrLit1 : List Char :=
  "setvar:".data ++ [quoteC] ++ "tx.inbound_anomaly_score_pl".data

/-- Literal middle of the increment pattern after the tier digit: `=+%{tx.`
(the opening of the captured macro expression). -/
def incrLit2 : List Char := "=+%\x7btx.".data

/-- Literal tail of the increment pattern: `_anomaly_score}'`. -/
def incrStop : List Char := "_anomaly_score\x7d".data ++ [quoteC]

/-- Embeds the lazy fragment `.*?` followed by the literal `stop`: finds the
shortest run of non-newline characters after which `stop` occurs, returning
the residue after `stop`. -/
def findLazy (stop : List Char) : List Char → Option (List Char)
  | [] => none
  | c :: rest =>
    if stop.isPrefixOf (c :: rest) then some ((c :: rest).drop stop.length)
    else if c = '\n' then none
    else findLazy stop rest

/-- Matcher for the full increment pattern
`setvar:'tx\.inbound_anomaly_score_pl[34]=\+(%\{tx\..*?_anomaly_score\})'`
(`rule_processor.py` line 19); the capture is unused by the source, so only
the residue is returned. -/
def matchIncr (l : List Char) : Option (List Char × List Char) :=
  if incrLit1.isPrefixOf l then
    match l.drop incrLit1.length with
    | c :: r1 =>
      if c = '3' || c = '4' then
        if incrLit2.isPrefixOf r1 then
          match findLazy incrStop (r1.drop incrLit2.length) with
          | some r => some ([], r)
          | none => none
        else none
      else none
    | [] => none
  else none

/-! ### Generic scanners: `re.search`, `re.sub`, `re.finditer` -/

/-- Embeds `re.search`: the first position (left to right) where the matcher
succeeds. -/
def firstMatch {α : Type} (m : List Char → Option α) : List Char → Option α
  | [] => none
  | x :: xs =>
    match m (x :: xs) with
    | some a => some a
    | none => firstMatch m xs

/-- Fueled worker for `re.sub` over all non-overlapping matches, resuming
after each match and never rescanning replacement text. -/
def subAllF (m : List Char → Option (List Char × List Char))
    (repl : List Char → List Char) : Nat → List Char → List Char
  | _, [] => []
  | 0, l => l
  | Nat.succ fuel, x :: xs =>
    match m (x :: xs) with
    | some (g, rest) => repl g ++ subAllF m repl fuel rest
    | none => x :: subAllF m repl fuel xs

/-- Embeds `re.sub(pattern, repl, s)` for a matcher consuming at least one
character per match (all the matchers above do). -/
def subAllM (m : List Char → Option (List Char × List Char))
    (repl : List Char → List Char) (l : List Char) : List Char :=
  subAllF m repl l.length l

/-- Fueled worker collecting the captured groups of all non-overlapping
matches, left to right. -/
def groupsF (m : List Char → Option (List Char × List Char)) :
    Nat → List Char → List (List Char)
  | _, [] => []
  | 0, _ => []
  | Nat.succ fuel, x :: xs =>
    match m (x :: xs) with
    | some (g, rest) => g :: groupsF m fuel rest
    | none => groupsF m fuel xs

/-- Embeds `re.finditer(pattern, s)` returning the group-1 captures in
match order. -/
def groupsAll (m : List Char → Option (List Char × List Char))
    (l : List Char) : List (List Char) :=
  groupsF m l.length l

/-! ### `modules/rule_processor.py` -/

/-- Embeds `generate_custom_rule_id` (rule_processor.py lines 29-43): an
identifier already carrying the `999` prefix is returned unchanged,
otherwise `999` is prepended. -/
def generate_custom_rule_id (original_id : List Char) : List Char :=
  if "999".data.isPrefixOf original_id then original_id
  else "999".data ++ original_id

/-- Embeds the `re.sub` of the increment pattern with the weight constant `w`
for the tier digit `pl` (rule_processor.py lines 22, 24, 26). -/
def subIncrAll (pl : Char) (w : List Char) (rule : List Char) : List Char :=
  subAllM matchIncr (fun _ => incrLit1 ++ [pl] ++ "=+".data ++ w ++ [quoteC]) rule

/-- Embeds `adjust_anomaly_score` (rule_processor.py lines 3-27). -/
def adjust_anomaly_score (rule : List Char) : List Char :=
  match firstMatch matchSev rule, firstMatch matchPL rule with
  | some sev, some pl =>
    let s := lowerL sev.1
    if s = "critical".data then subIncrAll pl.1 "2".data rule
    else if s = "warning".data || s = "error".data then subIncrAll pl.1 "1".data rule
    else if s = "notice".data then subIncrAll pl.1 "0".data rule
    else rule
  | _, _ => rule

/-- Embeds `re.sub(r"id:\d+", f"id:\x7bcustom_id\x7d", rule)`
(rule_processor.py line 85): every occurrence is replaced. -/
def subIdAll (custom : List Char) (rule : List Char) : List Char :=
  subAllM matchIdColon (fun _ => idColonLit ++ custom) rule

/-- Embeds the block-accumulation scan of `extract_paranoia_rules`
(rule_processor.py lines 54-70): stripped lines, comments and blanks skipped,
a block starts at a `SecRule` line and runs to the next one. -/
def blocksGo (buffer : List (List Char)) : List (List Char) → List (List Char)
  | [] => if buffer = [] then [] else [joinNL buffer]
  | line :: rest =>
    let l := pstrip line
    if "#".data.isPrefixOf l then blocksGo buffer rest
    else if l = [] then blocksGo buffer rest
    else if "SecRule".data.isPrefixOf l then
      (if buffer = [] then blocksGo [l] rest
       else joinNL buffer :: blocksGo [l] rest)
    else if buffer = [] then blocksGo buffer rest
    else blocksGo (buffer ++ [l]) rest

/-- Raw rule-text blocks of a rule-source text. -/
def extractBlocks (content : List Char) : List (List Char) :=
  blocksGo [] (splitlines content)

/-- Embeds the per-block body of the extraction loop (rule_processor.py
lines 74-88): paranoia-level filter, identifier extraction, skip of
already-custom identifiers, identifier substitution, weight adjustment, and
storage under the custom identifier. -/
def processBlock (acc : List (List Char × List Char)) (rule : List Char) :
    List (List Char × List Char) :=
  match firstMatch matchPL rule with
  | none => acc
  | some _ =>
    match firstMatch matchIdDecl rule with
    | none => acc
    | some idm =>
      let original_id := idm.1
      if "999".data.isPrefixOf original_id then acc
      else
        let custom_id := generate_custom_rule_id original_id
        let adjusted := adjust_anomaly_score (subIdAll custom_id rule)
        dictInsert custom_id adjusted acc

/-- Embeds `extract_paranoia_rules` (rule_processor.py lines 45-93); the
source is `none` when the rule-source file cannot be read, in which case the
`except` clause returns an empty dict. -/
def extract_paranoia_rules : Option (List Char) → List (List Char × List Char)
  | none => []
  | some content => (extractBlocks content).foldl processBlock []

/-- Error taxonomy name used by the specification for an unreadable rule
source. -/
inductive SourceError
  | sourceUnavailable
deriving DecidableEq

/-- Observable outcome of rule extraction: a normal return carrying a rule
dict, or an error. -/
inductive ExtractOutcome
  | ok (rules : List (List Char × List Char))
  | err (e : SourceError)
deriving DecidableEq

/-- Outcome of `extract_paranoia_rules` as its caller observes it: the
function wraps its whole body in `try ... except Exception: return \x7b\x7d`
(rule_processor.py lines 50, 91-93), so every call returns normally. -/
def extract_outcome (src : Option (List Char)) : ExtractOutcome :=
  ExtractOutcome.ok (extract_paranoia_rules src)

/-! ### `modules/file_operations.py` -/

/-- Embeds one iteration of the line loop of `get_existing_rules`
(file_operations.py lines 37-53): a line with an `id:(\d+)` match
contributes that identifier; otherwise a provenance comment contributes the
original identifier and, when it is not `999`-prefixed, its namespaced form
as well. -/
def existingLine (acc : List (List Char)) (line : List Char) : List (List Char) :=
  match firstMatch matchIdColon line with
  | some idm => insertIfAbsent idm.1 acc
  | none =>
    match firstMatch matchProv line with
    | some original_id =>
      if "999".data.isPrefixOf original_id then insertIfAbsent original_id acc
      else insertIfAbsent ("999".data ++ original_id) (insertIfAbsent original_id acc)
    | none => acc

/-- Embeds `get_existing_rules` (file_operations.py lines 23-56); `none`
models a missing store file (`FileNotFoundError` gives the empty set). -/
def get_existing_rules : Option (List Char) → List (List Char)
  | none => []
  | some content => (splitlines content).foldl existingLine []

/-! ### `modules/metadata_processor.py` -/

/-- One triggered-rule entry of a telemetry document, with the fields read
by `rules_metadata`; values are modelled already typed (`paranoia_level`
absent ↦ `none`, which the code defaults to `0`). -/
structure RuleData where
  rule_id : List Char
  paranoia_level : Option Int
  severity : Option (List Char)
  audit_data : Option (List Char)
deriving DecidableEq

/-- One telemetry document: its `rules` field (absent ↦ `[]`). -/
structure Hit where
  rules : List RuleData
deriving DecidableEq

/-- The rule-info dict built by `rules_metadata` (metadata_processor.py
lines 141-148). -/
structure RuleInfo where
  rule_id : List Char
  custom_id : List Char
  paranoia_level : Option Int
  severity : Option (List Char)
  audit_data : Option (List Char)
  count : Nat
deriving DecidableEq

/-- Embeds the `rule_counts` update (metadata_processor.py lines 134-137). -/
def countsIncr (k : List Char) (c : List (List Char × Nat)) : List (List Char × Nat) :=
  match lookupD k c with
  | some n => dictInsert k (n + 1) c
  | none => dictInsert k 1 c

/-- Embeds `targeted_rules[k]["count"] = n` where the two dict entries for a
rule alias the same record; a missing key raises `KeyError`, which the
per-rule handler turns into a no-op for the remaining statements. -/
def setCount (k : List Char) (n : Nat) (t : List (List Char × RuleInfo)) :
    List (List Char × RuleInfo) :=
  match lookupD k t with
  | some info => dictInsert k { info with count := n } t
  | none => t

/-- Embeds the body of the per-rule loop of `rules_metadata`
(metadata_processor.py lines 124-158). -/
def rmStep (st : List (List Char × RuleInfo) × List (List Char × Nat)) (rd : RuleData) :
    List (List Char × RuleInfo) × List (List Char × Nat) :=
  let targeted := st.1
  let counts := st.2
  let pl := rd.paranoia_level.getD 0
  if 3 ≤ pl then
    let custom_id := "999".data ++ rd.rule_id
    let counts2 := countsIncr rd.rule_id counts
    let c := (lookupD rd.rule_id counts2).getD 0
    if (lookupD rd.rule_id targeted).isNone then
      let info : RuleInfo :=
        ⟨rd.rule_id, custom_id, rd.paranoia_level, rd.severity, rd.audit_data, c⟩
      (dictInsert custom_id info (dictInsert rd.rule_id info targeted), counts2)
    else
      (setCount custom_id c (setCount rd.rule_id c targeted), counts2)
  else (targeted, counts)

/-- Stable descending insertion by trigger count, embedding
`sorted(..., key=lambda x: x["count"], reverse=True)`. -/
def insertByCount (x : RuleInfo) : List RuleInfo → List RuleInfo
  | [] => [x]
  | y :: ys => if y.count < x.count then x :: y :: ys else y :: insertByCount x ys

/-- Stable sort of rule infos by descending trigger count. -/
def sortByCountDesc (l : List RuleInfo) : List RuleInfo := l.foldr insertByCount []

/-- Embeds `rules_metadata` (metadata_processor.py lines 72-179); `none`
models an invalid response structure (early return of `[]`). -/
def rules_metadata (response : Option (List Hit)) : List RuleInfo :=
  match response with
  | none => []
  | some hits =>
    let rules_triggered := (hits.map Hit.rules).filter (fun rs => rs ≠ [])
    let st := rules_triggered.foldl (fun acc rs => rs.foldl rmStep acc) ([], [])
    let vals := st.1.map Prod.snd
    sortByCountDesc (vals.filter (fun r => !("999".data.isPrefixOf r.rule_id)))

/-! ### `modules/modsec_rule_updater.py` -/

/-- Embeds `ModSecRuleUpdater.extract_rule_ids` (lines 29-43): every
`id:(\d+)` capture, and for a capture without the `999` prefix also its
namespaced form. -/
def extract_rule_ids (rule_content : List Char) : List (List Char) :=
  (groupsAll matchIdColon rule_content).foldl
    (fun acc rid =>
      let acc2 := insertIfAbsent rid acc
      if "999".data.isPrefixOf rid then acc2
      else insertIfAbsent ("999".data ++ rid) acc2)
    []

/-- Embeds the loop of `ModSecRuleUpdater.check_rule_id_conflicts`
(lines 50-68) with its two accumulating sets. -/
def checkConflictsGo (origs customs : List (List Char)) : List (List Char) → Bool
  | [] => true
  | rid :: rest =>
    if "999".data.isPrefixOf rid then
      let customs2 := insertIfAbsent rid customs
      if rid.drop 3 ∈ origs then false
      else checkConflictsGo origs customs2 rest
    else
      let origs2 := insertIfAbsent rid origs
      if ("999".data ++ rid) ∈ customs then false
      else checkConflictsGo origs2 customs rest

/-- Embeds `ModSecRuleUpdater.check_rule_id_conflicts` (lines 45-68):
`true` iff no identifier occurs in both original and namespaced form. -/
def check_rule_id_conflicts (rule_ids : List (List Char)) : Bool :=
  checkConflictsGo [] [] rule_ids

/-- Exclusion directive written for a rule identifier
(modsec_rule_updater.py lines 83-85): the vendor-form identifier. -/
def exclusionDirective (rid : List Char) : List Char :=
  "SecRuleRemoveById ".data ++ (if "999".data.isPrefixOf rid then rid.drop 3 else rid)

/-- Embeds `ModSecRuleUpdater.add_rule_exclusions` (lines 70-98) over the
exclusions-file content (`none` models an unreadable file, whose exception
returns `False` with nothing written). -/
def add_rule_exclusions (exclusions : Option (List Char)) (rule_ids : List (List Char)) :
    Bool × Option (List Char) :=
  match exclusions with
  | none => (false, none)
  | some content =>
    let new_exclusions :=
      (rule_ids.filter (fun rid => !(subL (exclusionDirective rid) content))).map
        exclusionDirective
    if new_exclusions = [] then (true, some content)
    else (true, some (content ++ '\n' :: joinNL new_exclusions ++ ['\n']))

/-- External state visible to the deployment trigger: the enforcement-point
running flag, the store copy readable inside the container (`none` = read
fails), the exclusions-file content (`none` = unreadable), and whether a
graceful reload would succeed. -/
structure TriggerEnv where
  running : Bool
  containerStore : Option (List Char)
  exclusions : Option (List Char)
  reloadOk : Bool
deriving DecidableEq

/-- Result of `ModSecRuleUpdater.update_rules`: reported success, the
external state afterwards, and whether the reload step was reached. -/
structure UpdateResult where
  success : Bool
  env : TriggerEnv
  reloadCalled : Bool
deriving DecidableEq

/-- Embeds `ModSecRuleUpdater.update_rules` (lines 137-193) over the store
content it reads: container check, conflict checks, exclusions, reload. -/
def update_rules (env : TriggerEnv) (storeContent : List Char) : UpdateResult :=
  if !env.running then ⟨false, env, false⟩
  else
    let rule_ids := extract_rule_ids storeContent
    if !check_rule_id_conflicts rule_ids then ⟨false, env, false⟩
    else
      let containerOk :=
        match env.containerStore with
        | some cs => check_rule_id_conflicts (extract_rule_ids cs)
        | none => true
      if !containerOk then ⟨false, env, false⟩
      else
        let excl := add_rule_exclusions env.exclusions rule_ids
        if !excl.1 then ⟨false, { env with exclusions := excl.2 }, false⟩
        else ⟨env.reloadOk, { env with exclusions := excl.2 }, true⟩

/-! ### `main.py` -/

/-- Provenance marker comment written before an appended rule
(main.py line 119). -/
def provComment (custom_id original_id : List Char) : List Char :=
  "\n# Rule ".data ++ custom_id ++ " (Original: ".data ++ original_id ++ ")\n".data

/-- Terminating marker appended once per pass that added rules
(main.py line 140). -/
def endMarker : List Char :=
  "\nSecMarker \"END-REQUEST-942-APPLICATION-ATTACK-SQLI\"\n".data

/-- Embeds the rule-processing loop of `main` (main.py lines 96-126): a
record is appended iff its original identifier is a key of the extracted
dict and its custom identifier is not in the existing-rules set; the
existing-rules set is not modified by the loop. -/
def passLoop (extracted : List (List Char × List Char)) (existing : List (List Char))
    (store : List Char) : List RuleInfo → List Char × List RuleInfo
  | [] => (store, [])
  | r :: rest =>
    if hasKey r.rule_id extracted ∧ r.custom_id ∉ existing then
      let rule_content := (lookupD r.rule_id extracted).getD []
      let store2 := store ++ provComment r.custom_id r.rule_id ++ rule_content ++ ['\n']
      let res := passLoop extracted existing store2 rest
      (res.1, r :: res.2)
    else passLoop extracted existing store rest

/-- Outcome of one synchronization pass over the store: the final store
content and the appended records in pass order. -/
structure PassResult where
  store : List Char
  added : List RuleInfo
deriving DecidableEq

/-- Embeds one synchronization pass of `main` (main.py lines 39, 60, 64,
85-140): extraction from the rule source, the existing-identifier index from
the store file (`none` = absent file, created empty), the telemetry records,
the append loop, and the end marker when at least one rule was added. -/
def runPass (src storeFile : Option (List Char)) (response : Option (List Hit)) :
    PassResult :=
  let extracted := extract_paranoia_rules src
  let existing := get_existing_rules storeFile
  let sorted := rules_metadata response
  let store0 := storeFile.getD []
  let res := passLoop extracted existing store0 sorted
  if res.2 = [] then ⟨res.1, res.2⟩ else ⟨res.1 ++ endMarker, res.2⟩

/-- Outcome of a pass followed by the deployment trigger (main.py
lines 142-146): `trigger = none` when no rule was added and the trigger was
not invoked. -/
structure FullResult where
  store : List Char
  added : List RuleInfo
  trigger : Option Bool
  env : TriggerEnv
  reloadCalled : Bool
deriving DecidableEq

/-- Embeds a pass together with the conditional ModSecurity update
(main.py lines 142-146): the updater runs only when a rule was added, and
never modifies the store itself. -/
def runPassFull (src storeFile : Option (List Char)) (response : Option (List Hit))
    (env : TriggerEnv) : FullResult :=
  let p := runPass src storeFile response
  if p.added = [] then ⟨p.store, p.added, none, env, false⟩
  else
    let u := update_rules env p.store
    ⟨p.store, p.added, some u.success, u.env, u.reloadCalled⟩

/-! ### Spec-side definitions and concrete inputs -/

/-- Severity-to-weight mapping as the specification states it:
critical → 2, warning or error → 1, notice → 0, anything else → no
substitution. -/
def severityWeight (s : List Char) : Option (List Char) :=
  if s = "critical".data then some ("2".data)
  else if s = "warning".data || s = "error".data then some ("1".data)
  else if s = "notice".data then some ("0".data)
  else none

/-- Store content consisting solely of a provenance comment for original
id 942100 (no namespaced entry). -/
def provStore942 : List Char := "# Rule 999942100 (Original: 942100)".data

/-- Store content carrying both the original and the namespaced form of the
same identifier. -/
def conflictStore : List Char := "id:942100 id:999942100".data

/-- Rule-source text whose one eligible-looking block already carries a
`999`-prefixed identifier. -/
def demo999Block : List Char :=
  "SecRule ARGS x tag:".data ++ [quoteC] ++ "paranoia-level/3".data ++ [quoteC] ++
    " id:999123456".data

/-- Rule block tagged tier 3 with severity CRITICAL and an anomaly-score
increment expression. -/
def demoCritRule : List Char :=
  "SecRule ARGS attack tag:".data ++ [quoteC] ++ "paranoia-level/3".data ++ [quoteC] ++
    " severity:".data ++ [quoteC] ++ "CRITICAL".data ++ [quoteC] ++
    " setvar:".data ++ [quoteC] ++
    "tx.inbound_anomaly_score_pl3=+%\x7btx.critical_anomaly_score\x7d".data ++ [quoteC]

/-- The same block with its increment expression rewritten to the tier-3
constant 2. -/
def demoCritExpected : List Char :=
  "SecRule ARGS attack tag:".data ++ [quoteC] ++ "paranoia-level/3".data ++ [quoteC] ++
    " severity:".data ++ [quoteC] ++ "CRITICAL".data ++ [quoteC] ++
    " setvar:".data ++ [quoteC] ++ "tx.inbound_anomaly_score_pl3=+2".data ++ [quoteC]

/-- Rule text containing the identifier-declaration pattern twice. -/
def twoIdRule : List Char := "SecRule ARGS a id:942100 b id:942100 c".data

/-- The same text after the identifier rewrite: both occurrences replaced. -/
def twoIdRewritten : List Char := "SecRule ARGS a id:999942100 b id:999942100 c".data

/-- Rule text containing the identifier-declaration pattern exactly once. -/
def oneIdRule : List Char := "SecRule ARGS a id:942100 b".data

/-! ### Scanner lemmas -/

/-- Dropping a prefix by predicate never lengthens a list. -/
theorem dropWhile_length_le (p : Char → Bool) :
    ∀ l : List Char, (l.dropWhile p).length ≤ l.length
  | [] => Nat.le_refl _
  | a :: t => by
    rw [List.dropWhile_cons]
    split
    · exact Nat.le_trans (dropWhile_length_le p t) (Nat.le_succ _)
    · exact Nat.le_refl _

/-- Every successful `id:(\d+)` match consumes at least one character. -/
theorem matchIdColon_length {l : List Char} {p : List Char × List Char}
    (h : matchIdColon l = some p) : p.2.length < l.length := by
  unfold matchIdColon at h
  split at h
  case isTrue hpre =>
    dsimp only at h
    split at h
    · exact absurd h (by simp)
    · injection h with h'
      have h3 : idColonLit.length ≤ l.length := by
        have := ( List.isPrefixOf_iff_prefix.mp hpre).length_le
        exact this
      have h4 : idColonLit.length = 3 := by decide
      have h5 : ((l.drop idColonLit.length).dropWhile Char.isDigit).length ≤
          (l.drop idColonLit.length).length := dropWhile_length_le _ _
      rw [← h']
      simp only [List.length_drop] at h5 ⊢
      omega
  case isFalse => exact absurd h (by simp)

/-- The lazy scan consumes no fewer characters than it returns. -/
theorem findLazy_length {stop l : List Char} {r : List Char}
    (h : findLazy stop l = some r) : r.length ≤ l.length := by
  induction l with
  | nil => simp [findLazy] at h
  | cons c rest ih =>
    unfold findLazy at h
    split at h
    · injection h with h'
      rw [← h']
      simp only [List.length_drop, List.length_cons]
      omega
    · split at h
      · exact absurd h (by simp)
      · exact Nat.le_trans (ih h) (by simp)

/-- Every successful increment-pattern match consumes at least one
character. -/
theorem matchIncr_length {l : List Char} {p : List Char × List Char}
    (h : matchIncr l = some p) : p.2.length < l.length := by
  unfold matchIncr at h
  split at h
  case isTrue hpre =>
    have hlen1 : incrLit1.length = 35 := by decide
    have hlen : incrLit1.length ≤ l.length := by
      exact ( List.isPrefixOf_iff_prefix.mp hpre).length_le
    cases hdrop : l.drop incrLit1.length with
    | nil => rw [hdrop] at h; exact absurd h (by simp)
    | cons c r1 =>
      rw [hdrop] at h
      dsimp only at h
      have hr1 : r1.length + 1 = l.length - incrLit1.length := by
        have := congrArg List.length hdrop
        simp only [List.length_drop, List.length_cons] at this
        omega
      split at h
      · split at h
        case isTrue hpre2 =>
          cases hfl : findLazy incrStop (r1.drop incrLit2.length) with
          | none => rw [hfl] at h; exact absurd h (by simp)
          | some r =>
            rw [hfl] at h
            injection h with h'
            have h5 : r.length ≤ (r1.drop incrLit2.length).length := findLazy_length hfl
            simp only [List.length_drop] at h5
            rw [← h']
            simp only
            omega
        case isFalse => exact absurd h (by simp)
      · exact absurd h (by simp)
  case isFalse => exact absurd h (by simp)

/-- Fuel irrelevance for the `re.sub` worker: any fuel at least the input
length computes the same result. -/
theorem subAllF_congr (m : List Char → Option (List Char × List Char))
    (repl : List Char → List Char)
    (hm : ∀ l p, m l = some p → p.2.length < l.length) :
    ∀ f1 f2 l, l.length ≤ f1 → l.length ≤ f2 →
      subAllF m repl f1 l = subAllF m repl f2 l := by
  intro f1
  induction f1 with
  | zero =>
    intro f2 l h1 _
    have : l = [] := List.length_eq_zero.mp (Nat.le_zero.mp h1)
    subst this
    cases f2 <;> simp [subAllF]
  | succ f ih =>
    intro f2 l h1 h2
    cases l with
    | nil => cases f2 <;> simp [subAllF]
    | cons x xs =>
      cases f2 with
      | zero => simp at h2
      | succ f2' =>
        simp only [subAllF]
        simp only [List.length_cons] at h1 h2
        cases hmx : m (x :: xs) with
        | some p =>
          have hlt := hm _ _ hmx
          simp only [List.length_cons] at hlt
          exact congrArg _ (ih f2' p.2 (by omega) (by omega))
        | none =>
          exact congrArg _ (ih f2' xs (by omega) (by omega))

/-- Empty-input equation for `subAllM`. -/
theorem subAllM_nil (m : List Char → Option (List Char × List Char))
    (repl : List Char → List Char) : subAllM m repl [] = [] := rfl

/-- Step equation for `subAllM`: replace at a match and resume after it,
else keep the character and continue. -/
theorem subAllM_cons (m : List Char → Option (List Char × List Char))
    (repl : List Char → List Char)
    (hm : ∀ l p, m l = some p → p.2.length < l.length) (x : Char) (xs : List Char) :
    subAllM m repl (x :: xs) =
      (match m (x :: xs) with
       | some p => repl p.1 ++ subAllM m repl p.2
       | none => x :: subAllM m repl xs) := by
  unfold subAllM
  simp only [List.length_cons, subAllF]
  cases hmx : m (x :: xs) with
  | some p =>
    have hlt := hm _ _ hmx
    simp only [List.length_cons] at hlt
    exact congrArg _ (subAllF_congr m repl hm _ _ _ (by omega) (by omega))
  | none => rfl

/-- Fuel irrelevance for the `re.finditer` worker. -/
theorem groupsF_congr (m : List Char → Option (List Char × List Char))
    (hm : ∀ l p, m l = some p → p.2.length < l.length) :
    ∀ f1 f2 l, l.length ≤ f1 → l.length ≤ f2 →
      groupsF m f1 l = groupsF m f2 l := by
  intro f1
  induction f1 with
  | zero =>
    intro f2 l h1 _
    have : l = [] := List.length_eq_zero.mp (Nat.le_zero.mp h1)
    subst this
    cases f2 <;> simp [groupsF]
  | succ f ih =>
    intro f2 l h1 h2
    cases l with
    | nil => cases f2 <;> simp [groupsF]
    | cons x xs =>
      cases f2 with
      | zero => simp at h2
      | succ f2' =>
        simp only [groupsF]
        simp only [List.length_cons] at h1 h2
        cases hmx : m (x :: xs) with
        | some p =>
          have hlt := hm _ _ hmx
          simp only [List.length_cons] at hlt
          exact congrArg _ (ih f2' p.2 (by omega) (by omega))
        | none => exact ih f2' xs (by omega) (by omega)

/-- The namespace prefix is a prefix of anything it is prepended to. -/
theorem pre999_append (x : List Char) :
    "999".data.isPrefixOf ("999".data ++ x) = true := by
  rw [ List.isPrefixOf_iff_prefix]
  exact List.prefix_append _ _

/-- Appending the namespace prefix changes the identifier. -/
theorem append999_ne (x : List Char) : "999".data ++ x ≠ x := by
  intro h
  have hlen := congrArg List.length h
  rw [List.length_append] at hlen
  have h3 : ("999".data).length = 3 := rfl
  rw [h3] at hlen
  omega

/-- Keys already satisfying a predicate keep satisfying it across a dict
assignment whose new pair satisfies it. -/
theorem dictInsert_all {V : Type} (P : List Char × V → Bool) (k : List Char) (v : V) :
    ∀ d : List (List Char × V), d.all P = true → P (k, v) = true →
      (dictInsert k v d).all P = true
  | [], _, hkv => by simp [dictInsert, hkv]
  | (k0, v0) :: t, hd, hkv => by
    unfold dictInsert
    simp only [List.all_cons, Bool.and_eq_true] at hd
    split
    · simp [hkv, hd.2]
    · simp only [List.all_cons, Bool.and_eq_true]
      exact ⟨hd.1, dictInsert_all P k v t hd.2 hkv⟩

/-- One extraction step only ever adds a `999`-prefixed key. -/
theorem processBlock_all (acc : List (List Char × List Char)) (rule : List Char)
    (h : acc.all (fun kv => "999".data.isPrefixOf kv.1) = true) :
    (processBlock acc rule).all (fun kv => "999".data.isPrefixOf kv.1) = true := by
  unfold processBlock
  cases firstMatch matchPL rule with
  | none => exact h
  | some plm =>
    cases firstMatch matchIdDecl rule with
    | none => exact h
    | some idm =>
      dsimp only
      split
      · exact h
      case isFalse hpre =>
        apply dictInsert_all _ _ _ _ h
        unfold generate_custom_rule_id
        rw [if_neg hpre]
        exact pre999_append _

/-- Every key of the extracted rule dict carries the `999` namespace
prefix (rule_processor.py lines 80-88). -/
theorem extract_keys_999 (src : Option (List Char)) :
    (extract_paranoia_rules src).all (fun kv => "999".data.isPrefixOf kv.1) = true := by
  cases src with
  | none => rfl
  | some content =>
    show ((extractBlocks content).foldl processBlock []).all
      (fun kv => "999".data.isPrefixOf kv.1) = true
    generalize extractBlocks content = blocks
    have grow : ∀ (bs : List (List Char)) (acc : List (List Char × List Char)),
        acc.all (fun kv => "999".data.isPrefixOf kv.1) = true →
        (bs.foldl processBlock acc).all (fun kv => "999".data.isPrefixOf kv.1) = true := by
      intro bs
      induction bs with
      | nil => intro acc h; exact h
      | cons b bs ih => intro acc h; exact ih _ (processBlock_all acc b h)
    exact grow blocks [] rfl

/-- A key without the `999` prefix is absent from a dict all of whose keys
carry it. -/
theorem hasKey_eq_false {V : Type} (rid : List Char)
    (hr : "999".data.isPrefixOf rid = false) :
    ∀ d : List (List Char × V),
      d.all (fun kv => "999".data.isPrefixOf kv.1) = true → hasKey rid d = false
  | [], _ => rfl
  | (k0, v0) :: t, hd => by
    simp only [List.all_cons, Bool.and_eq_true] at hd
    unfold hasKey
    have hk0 : (decide (k0 = rid)) = false := by
      rcases Decidable.em (k0 = rid) with he | he
      · subst he; rw [hd.1] at hr; exact absurd hr (by simp)
      · simp [he]
    rw [hk0, hasKey_eq_false rid hr t hd.2]
    rfl

/-- Insertion by count preserves a universally-satisfied predicate. -/
theorem insertByCount_all (p : RuleInfo → Bool) (x : RuleInfo)
    (hx : p x = true) :
    ∀ l : List RuleInfo, l.all p = true → (insertByCount x l).all p = true
  | [], _ => by simp [insertByCount, hx]
  | y :: ys, hl => by
    simp only [List.all_cons, Bool.and_eq_true] at hl
    unfold insertByCount
    split
    · simp [hx, hl.1, hl.2]
    · simp only [List.all_cons, Bool.and_eq_true]
      exact ⟨hl.1, insertByCount_all p x hx ys hl.2⟩

/-- Sorting by count preserves a universally-satisfied predicate. -/
theorem sortByCountDesc_all (p : RuleInfo → Bool) :
    ∀ l : List RuleInfo, l.all p = true → (sortByCountDesc l).all p = true := by
  intro l
  unfold sortByCountDesc
  induction l with
  | nil => intro h; exact h
  | cons x xs ih =>
    intro h
    simp only [List.all_cons, Bool.and_eq_true] at h
    exact insertByCount_all p x h.1 _ (ih h.2)

/-- A filtered list satisfies its filtering predicate throughout. -/
theorem filter_all_self {α : Type} (q : α → Bool) :
    ∀ l : List α, (l.filter q).all q = true
  | [] => rfl
  | x :: xs => by
    rw [List.filter_cons]
    split
    case isTrue hq => simp only [List.all_cons, Bool.and_eq_true]; exact ⟨hq, filter_all_self q xs⟩
    case isFalse => exact filter_all_self q xs

/-- No record returned by `rules_metadata` has a `999`-prefixed
`rule_id` (metadata_processor.py line 162). -/
theorem rules_metadata_all (response : Option (List Hit)) :
    (rules_metadata response).all (fun r => !("999".data.isPrefixOf r.rule_id)) = true := by
  cases response with
  | none => rfl
  | some hits =>
    unfold rules_metadata
    exact sortByCountDesc_all _ _ (filter_all_self _ _)

/-- The append loop of `main` adds nothing and leaves the store unchanged
when no processed record has its `rule_id` among the extracted keys. -/
theorem passLoop_skip (extracted : List (List Char × List Char))
    (existing : List (List Char))
    (hall : extracted.all (fun kv => "999".data.isPrefixOf kv.1) = true) :
    ∀ (sorted : List RuleInfo) (store : List Char),
      sorted.all (fun r => !("999".data.isPrefixOf r.rule_id)) = true →
      passLoop extracted existing store sorted = (store, [])
  | [], store, _ => rfl
  | r :: rest, store, hs => by
    simp only [List.all_cons, Bool.and_eq_true] at hs
    have hkey : hasKey r.rule_id extracted = false :=
      hasKey_eq_false r.rule_id (by simpa using hs.1) extracted hall
    unfold passLoop
    rw [if_neg (by simp [hkey])]
    exact passLoop_skip extracted existing hall rest store hs.2

/-- Central behavioral fact of the synchronization pass as coded: the
extracted dict is keyed by `999`-prefixed custom identifiers while the loop
probes it with non-prefixed original identifiers, so no record is ever
appended and the store content is returned unchanged (an absent store file
becomes the empty store). -/
theorem pass_added_nil (src storeFile : Option (List Char)) (response : Option (List Hit)) :
    runPass src storeFile response = ⟨storeFile.getD [], []⟩ := by
  unfold runPass
  dsimp only
  rw [passLoop_skip _ _ (extract_keys_999 src) _ _ (rules_metadata_all response)]
  simp

/-- A value is a member of the set after inserting it. -/
theorem mem_insertIfAbsent_self (a : List Char) (s : List (List Char)) :
    a ∈ insertIfAbsent a s := by
  unfold insertIfAbsent
  split
  · assumption
  · simp

/-- Prior members survive a set insertion. -/
theorem mem_insertIfAbsent_of_mem (a b : List Char) (s : List (List Char))
    (h : b ∈ s) : b ∈ insertIfAbsent a s := by
  unfold insertIfAbsent
  split
  · exact h
  · simp [h]

/-- Dropping the namespace prefix from a namespaced identifier recovers the
original. -/
theorem drop3_append999 (d : List Char) : ("999".data ++ d).drop 3 = d := by
  have h3 : ("999".data).length = 3 := rfl
  rw [← h3, List.drop_left]

/-- Core conflict-detection invariant: once an identifier and its namespaced
form are jointly visible to the scan (still ahead in the list, or one of
them already in the matching accumulator), `check_rule_id_conflicts`
returns `False`. -/
theorem conflict_detected (d : List Char) (hd : "999".data.isPrefixOf d = false) :
    ∀ (l origs customs : List (List Char)),
      ((d ∈ l ∧ ("999".data ++ d) ∈ l) ∨ (d ∈ l ∧ ("999".data ++ d) ∈ customs) ∨
        (("999".data ++ d) ∈ l ∧ d ∈ origs)) →
      checkConflictsGo origs customs l = false
  | [], origs, customs, h => by simp at h
  | rid :: rest, origs, customs, h => by
    have hne : rid = d → "999".data.isPrefixOf rid = false := fun he => he ▸ hd
    unfold checkConflictsGo
    by_cases h999 : "999".data.isPrefixOf rid = true
    case pos =>
      rw [if_pos h999]
      have hrd : rid ≠ d := fun he => by rw [hne he] at h999; exact absurd h999 (by simp)
      by_cases hc : rid.drop 3 ∈ origs
      · rw [if_pos hc]
      · rw [if_neg hc]
        apply conflict_detected d hd rest origs (insertIfAbsent rid customs)
        rcases h with ⟨hdl, hel⟩ | ⟨hdl, hec⟩ | ⟨hel, hor⟩
        · have hdl' : d ∈ rest := by
            rcases List.mem_cons.mp hdl with he | hm
            · exact absurd he.symm hrd
            · exact hm
          rcases List.mem_cons.mp hel with he | hm
          · exact Or.inr (Or.inl ⟨hdl', he ▸ mem_insertIfAbsent_self rid customs⟩)
          · exact Or.inl ⟨hdl', hm⟩
        · have hdl' : d ∈ rest := by
            rcases List.mem_cons.mp hdl with he | hm
            · exact absurd he.symm hrd
            · exact hm
          exact Or.inr (Or.inl ⟨hdl', mem_insertIfAbsent_of_mem rid _ customs hec⟩)
        · rcases List.mem_cons.mp hel with he | hm
          · exfalso
            apply hc
            rw [← he, drop3_append999]
            exact hor
          · exact Or.inr (Or.inr ⟨hm, hor⟩)
    case neg =>
      rw [if_neg h999]
      have hre : rid ≠ "999".data ++ d := by
        intro he
        rw [he] at h999
        exact h999 (pre999_append d)
      by_cases hcc : ("999".data ++ rid) ∈ customs
      · rw [if_pos hcc]
      · rw [if_neg hcc]
        apply conflict_detected d hd rest (insertIfAbsent rid origs) customs
        rcases h with ⟨hdl, hel⟩ | ⟨hdl, hec⟩ | ⟨hel, hor⟩
        · have hel' : ("999".data ++ d) ∈ rest := by
            rcases List.mem_cons.mp hel with he | hm
            · exact absurd he.symm hre
            · exact hm
          rcases List.mem_cons.mp hdl with he | hm
          · exact Or.inr (Or.inr ⟨hel', he ▸ mem_insertIfAbsent_self rid origs⟩)
          · exact Or.inl ⟨hm, hel'⟩
        · rcases List.mem_cons.mp hdl with he | hm
          · exact absurd (he ▸ hec) hcc
          · exact Or.inr (Or.inl ⟨hm, hec⟩)
        · have hel' : ("999".data ++ d) ∈ rest := by
            rcases List.mem_cons.mp hel with he | hm
            · exact absurd he.symm hre
            · exact hm
          exact Or.inr (Or.inr ⟨hel', mem_insertIfAbsent_of_mem rid d origs hor⟩)

/-- A list of identifiers containing both an original identifier and its
namespaced form fails the conflict check. -/
theorem check_conflicts_false (ids : List (List Char)) (d : List Char)
    (hd : "999".data.isPrefixOf d = false) (h1 : d ∈ ids)
    (h2 : ("999".data ++ d) ∈ ids) : check_rule_id_conflicts ids = false :=
  conflict_detected d hd ids [] [] (Or.inl ⟨h1, h2⟩)

/-- Empty-input equation for `groupsAll`. -/
theorem groupsAll_nil (m : List Char → Option (List Char × List Char)) :
    groupsAll m [] = [] := rfl

/-- Step equation for `groupsAll`. -/
theorem groupsAll_cons (m : List Char → Option (List Char × List Char))
    (hm : ∀ l p, m l = some p → p.2.length < l.length) (x : Char) (xs : List Char) :
    groupsAll m (x :: xs) =
      (match m (x :: xs) with
       | some p => p.1 :: groupsAll m p.2
       | none => groupsAll m xs) := by
  unfold groupsAll
  simp only [List.length_cons, groupsF]
  cases hmx : m (x :: xs) with
  | some p =>
    have hlt := hm _ _ hmx
    simp only [List.length_cons] at hlt
    exact congrArg _ (groupsF_congr m hm _ _ _ (by omega) (by omega))
  | none => rfl

/-- A conflicting store makes `update_rules` report failure before the
container read, the exclusion write and the reload. -/
theorem update_rules_conflict (env : TriggerEnv) (store : List Char) (d : List Char)
    (henv : env.running = true) (hd : "999".data.isPrefixOf d = false)
    (h1 : d ∈ extract_rule_ids store)
    (h2 : ("999".data ++ d) ∈ extract_rule_ids store) :
    update_rules env store = ⟨false, env, false⟩ := by
  have hck : check_rule_id_conflicts (extract_rule_ids store) = false :=
    check_conflicts_false _ d hd h1 h2
  unfold update_rules
  rw [henv]
  dsimp only
  rw [hck]
  simp

/-! ### Identifier-substitution structure lemmas -/

/-- The literal `id:` is a prefix exactly of lists starting with those three
characters. -/
theorem idColonLit_prefix_iff (l : List Char) :
    idColonLit.isPrefixOf l = true ↔ ∃ w, l = 'i' :: 'd' :: ':' :: w := by
  rw [ List.isPrefixOf_iff_prefix]
  constructor
  · rintro ⟨t, ht⟩
    exact ⟨t, by rw [← ht]; rfl⟩
  · rintro ⟨w, hw⟩
    exact ⟨w, by rw [hw]; rfl⟩

/-- Characterization of a successful `id:(\d+)` match. -/
theorem matchIdColon_some_iff {l g r : List Char} :
    matchIdColon l = some (g, r) ↔
      ∃ w, l = 'i' :: 'd' :: ':' :: w ∧ w.takeWhile Char.isDigit ≠ [] ∧
        g = w.takeWhile Char.isDigit ∧ r = w.dropWhile Char.isDigit := by
  unfold matchIdColon
  by_cases hpre : idColonLit.isPrefixOf l = true
  · rw [if_pos hpre]
    obtain ⟨w, hw⟩ := (idColonLit_prefix_iff l).mp hpre
    subst hw
    have hd : (('i' :: 'd' :: ':' :: w).drop idColonLit.length) = w := rfl
    dsimp only
    rw [hd]
    by_cases ht : w.takeWhile Char.isDigit = []
    · rw [if_pos ht]
      simp only [List.cons.injEq, true_and]
      constructor
      · intro hcon
        exact absurd hcon (by simp)
      · rintro ⟨w2, hw2, hne, _, _⟩
        exact absurd (hw2 ▸ ht) hne
    · rw [if_neg ht]
      constructor
      · intro hs
        injection hs with hs
        injection hs with hs1 hs2
        exact ⟨w, rfl, ht, hs1.symm, hs2.symm⟩
      · rintro ⟨w2, hw2, _, hg, hr⟩
        have hww : w2 = w := by
          injection hw2 with _ h1
          injection h1 with _ h2
          injection h2 with _ h3
          exact h3.symm
        rw [hg, hr, hww]
  · rw [if_neg hpre]
    constructor
    · intro hcon
      exact absurd hcon (by simp)
    · rintro ⟨w, hw, _, _, _⟩
      exact absurd ((idColonLit_prefix_iff l).mpr ⟨w, hw⟩) hpre

/-- Combined step equation for the identifier rewrite. -/
theorem subIdAll_cons (c : List Char) (x : Char) (xs : List Char) :
    subIdAll c (x :: xs) =
      (match matchIdColon (x :: xs) with
       | some p => idColonLit ++ c ++ subIdAll c p.2
       | none => x :: subIdAll c xs) := by
  unfold subIdAll
  rw [subAllM_cons _ _ (fun l p h => matchIdColon_length h)]

/-- Step equation at a match position. -/
theorem subIdAll_cons_match {c : List Char} {x : Char} {xs : List Char}
    {p : List Char × List Char} (h : matchIdColon (x :: xs) = some p) :
    subIdAll c (x :: xs) = idColonLit ++ c ++ subIdAll c p.2 := by
  rw [subIdAll_cons, h]

/-- Step equation away from a match position. -/
theorem subIdAll_cons_nomatch {c : List Char} {x : Char} {xs : List Char}
    (h : matchIdColon (x :: xs) = none) :
    subIdAll c (x :: xs) = x :: subIdAll c xs := by
  rw [subIdAll_cons, h]

/-- The identifier rewrite never changes the first character of the text. -/
theorem subIdAll_head (c : List Char) (l : List Char) :
    (subIdAll c l).head? = l.head? := by
  cases l with
  | nil => rfl
  | cons x xs =>
    cases hmx : matchIdColon (x :: xs) with
    | some p =>
      rw [subIdAll_cons_match hmx]
      obtain ⟨w, hw, _, _, _⟩ := matchIdColon_some_iff.mp (by rw [hmx])
      injection hw with h1 _
      rw [h1]
      rfl
    | none =>
      rw [subIdAll_cons_nomatch hmx]
      rfl

/-- Taking while a predicate holds walks through a block that satisfies it
everywhere. -/
theorem takeWhile_append_all (p : Char → Bool) :
    ∀ a b : List Char, a.all p = true → (a ++ b).takeWhile p = a ++ b.takeWhile p
  | [], _, _ => rfl
  | x :: a, b, h => by
    simp only [List.all_cons, Bool.and_eq_true] at h
    simp only [List.cons_append, List.takeWhile_cons, h.1, if_true]
    rw [takeWhile_append_all p a b h.2]

/-- Dropping while a predicate holds removes a block that satisfies it
everywhere. -/
theorem dropWhile_append_all (p : Char → Bool) :
    ∀ a b : List Char, a.all p = true → (a ++ b).dropWhile p = b.dropWhile p
  | [], _, _ => rfl
  | x :: a, b, h => by
    simp only [List.all_cons, Bool.and_eq_true] at h
    simp only [List.cons_append, List.dropWhile_cons, h.1, if_true]
    exact dropWhile_append_all p a b h.2

/-- A list whose head refutes the predicate has an empty `takeWhile`. -/
theorem takeWhile_eq_nil_of_head (p : Char → Bool) (l : List Char)
    (h : ∀ c, l.head? = some c → p c = false) : l.takeWhile p = [] := by
  cases l with
  | nil => rfl
  | cons x xs =>
    rw [List.takeWhile_cons, h x rfl]
    rfl

/-- A list whose head refutes the predicate is fixed by `dropWhile`. -/
theorem dropWhile_eq_self_of_head (p : Char → Bool) (l : List Char)
    (h : ∀ c, l.head? = some c → p c = false) : l.dropWhile p = l := by
  cases l with
  | nil => rfl
  | cons x xs =>
    rw [List.dropWhile_cons, h x rfl]
    rfl

/-- The head of a `dropWhile` residue refutes the predicate. -/
theorem head_dropWhile_false (p : Char → Bool) :
    ∀ (l : List Char) (c : Char), (l.dropWhile p).head? = some c → p c = false
  | [], c, h => by simp at h
  | x :: xs, c, h => by
    rw [List.dropWhile_cons] at h
    by_cases hx : p x = true
    · rw [hx] at h
      simp only [if_true] at h
      exact head_dropWhile_false p xs c h
    · have hx' : p x = false := by
        cases hpx : p x
        · rfl
        · exact absurd hpx hx
      rw [hx'] at h
      simp only [Bool.false_eq_true, if_false, List.head?_cons] at h
      injection h with h
      rw [← h]
      exact hx'

/-- A nonempty `takeWhile` residue pins down a satisfying head. -/
theorem takeWhile_ne_nil_iff_head (p : Char → Bool) (l : List Char) :
    l.takeWhile p ≠ [] ↔ ∃ c, l.head? = some c ∧ p c = true := by
  cases l with
  | nil => simp
  | cons x xs =>
    rw [List.takeWhile_cons]
    by_cases hx : p x = true
    · simp [hx]
    · have hx' : p x = false := by
        cases hpx : p x
        · rfl
        · exact absurd hpx hx
      simp [hx']

/-- The identifier rewrite cannot create an identifier-declaration match at
a position where the original text had none. -/
theorem subIdAll_no_new_match (c : List Char) {x : Char} {xs : List Char}
    (h : matchIdColon (x :: xs) = none) :
    matchIdColon (x :: subIdAll c xs) = none := by
  cases hm : matchIdColon (x :: subIdAll c xs) with
  | none => rfl
  | some q =>
    exfalso
    have hq : matchIdColon (x :: subIdAll c xs) = some (q.1, q.2) := by rw [hm]
    obtain ⟨w, hw, hne, _, _⟩ := matchIdColon_some_iff.mp hq
    injection hw with hx hrest
    cases xs with
    | nil =>
      exact absurd hrest (by simp [subIdAll, subAllM, subAllF])
    | cons a ys =>
      cases hma : matchIdColon (a :: ys) with
      | some pa =>
        rw [subIdAll_cons_match hma] at hrest
        have hh2 : some 'i' = some 'd' := congrArg List.head? hrest
        exact absurd hh2 (by decide)
      | none =>
        rw [subIdAll_cons_nomatch hma] at hrest
        injection hrest with ha hrest2
        cases ys with
        | nil => exact absurd hrest2 (by simp [subIdAll, subAllM, subAllF])
        | cons b zs =>
          cases hmb : matchIdColon (b :: zs) with
          | some pb =>
            rw [subIdAll_cons_match hmb] at hrest2
            have hh2 : some 'i' = some ':' := congrArg List.head? hrest2
            exact absurd hh2 (by decide)
          | none =>
            rw [subIdAll_cons_nomatch hmb] at hrest2
            injection hrest2 with hb hrest3
            obtain ⟨c0, hc0, hc0d⟩ := (takeWhile_ne_nil_iff_head Char.isDigit w).mp hne
            have hzs_head : zs.head? = some c0 := by
              rw [← subIdAll_head c zs, hrest3]
              exact hc0
            have hzs : zs.takeWhile Char.isDigit ≠ [] :=
              (takeWhile_ne_nil_iff_head Char.isDigit zs).mpr ⟨c0, hzs_head, hc0d⟩
            have hsome : matchIdColon ('i' :: 'd' :: ':' :: zs) =
                some (zs.takeWhile Char.isDigit, zs.dropWhile Char.isDigit) :=
              matchIdColon_some_iff.mpr ⟨zs, rfl, hzs, rfl, rfl⟩
            rw [hx, ha, hb, hsome] at h
            exact absurd h (by simp)

/-- After the identifier rewrite with a nonempty all-digit custom
identifier, the identifier declarations of the text are in one-to-one
correspondence with the original ones, each carrying the substituted
identifier. -/
theorem subIdAll_groups (c : List Char) (hc : c ≠ [])
    (hdig : c.all Char.isDigit = true) :
    ∀ (n : Nat) (l : List Char), l.length ≤ n →
      groupsAll matchIdColon (subIdAll c l) =
        (groupsAll matchIdColon l).map (fun _ => c) := by
  have hmm : ∀ (l' : List Char) (p : List Char × List Char),
      matchIdColon l' = some p → p.2.length < l'.length :=
    fun _ _ h => matchIdColon_length h
  intro n
  induction n with
  | zero =>
    intro l hl
    have h0 : l = [] := List.length_eq_zero.mp (Nat.le_zero.mp hl)
    subst h0
    rfl
  | succ n ih =>
    intro l hl
    cases l with
    | nil => rfl
    | cons x xs =>
      cases hmx : matchIdColon (x :: xs) with
      | some p =>
        have hq : matchIdColon (x :: xs) = some (p.1, p.2) := by rw [hmx]
        obtain ⟨w, hw, hne, hg, hr⟩ := matchIdColon_some_iff.mp hq
        have hThead : ∀ c0, (subIdAll c p.2).head? = some c0 →
            Char.isDigit c0 = false := by
          intro c0 h0
          rw [subIdAll_head] at h0
          rw [hr] at h0
          exact head_dropWhile_false Char.isDigit w c0 h0
        have htake : (c ++ subIdAll c p.2).takeWhile Char.isDigit = c := by
          rw [takeWhile_append_all Char.isDigit c _ hdig,
            takeWhile_eq_nil_of_head Char.isDigit _ hThead, List.append_nil]
        have hdrop : (c ++ subIdAll c p.2).dropWhile Char.isDigit = subIdAll c p.2 := by
          rw [dropWhile_append_all Char.isDigit c _ hdig,
            dropWhile_eq_self_of_head Char.isDigit _ hThead]
        have hstep : matchIdColon ('i' :: 'd' :: ':' :: (c ++ subIdAll c p.2)) =
            some (c, subIdAll c p.2) := by
          rw [matchIdColon_some_iff]
          refine ⟨c ++ subIdAll c p.2, rfl, ?_, htake.symm, hdrop.symm⟩
          rw [htake]
          exact hc
        rw [subIdAll_cons_match hmx]
        have hshape : idColonLit ++ c ++ subIdAll c p.2 =
            'i' :: 'd' :: ':' :: (c ++ subIdAll c p.2) := rfl
        rw [hshape]
        rw [groupsAll_cons _ hmm, hstep]
        dsimp only
        rw [groupsAll_cons _ hmm, hmx]
        dsimp only
        rw [List.map_cons]
        congr 1
        have hlt := matchIdColon_length hmx
        simp only [List.length_cons] at hlt hl
        exact ih p.2 (by omega)
      | none =>
        rw [subIdAll_cons_nomatch hmx]
        rw [groupsAll_cons _ hmm, subIdAll_no_new_match c hmx]
        dsimp only
        rw [groupsAll_cons _ hmm, hmx]
        simp only [List.length_cons] at hl
        exact ih xs (by omega)

/-! ### Claim theorems -/

/-- C1: synchronization is idempotent across passes.  A second pass with
the same source against the store populated by the first pass appends zero
records, and no record whose original or custom identifier is already in
the store index is ever appended.  (Both facts hold because the coded pass
never appends at all: the extracted dict is keyed by `999`-prefixed custom
identifiers while the loop checks membership of the unprefixed original
identifier.) -/
theorem claim1_idempotent_sync (src storeFile : Option (List Char))
    (response : Option (List Hit)) :
    (runPass src (some (runPass src storeFile response).store) response).added = [] ∧
    (∀ store2 : Option (List Char),
      ((runPass src store2 response).added.filter
        (fun r => (get_existing_rules store2).contains r.rule_id ||
                  (get_existing_rules store2).contains r.custom_id)) = []) := by
  constructor
  · rw [pass_added_nil]
  · intro store2
    rw [pass_added_nil]
    rfl

/-- C2: a record is appended only when neither its original nor its custom
identifier form is in the RuleStore index; in particular a store holding
only a provenance comment for original id 942100 indexes both `942100` and
`999942100` and blocks any append against it. -/
theorem claim2_append_blocked (src storeFile : Option (List Char))
    (response : Option (List Hit)) :
    ((runPass src storeFile response).added.all
      (fun r => !((get_existing_rules storeFile).contains r.rule_id ||
                  (get_existing_rules storeFile).contains r.custom_id))) = true ∧
    "942100".data ∈ get_existing_rules (some provStore942) ∧
    "999942100".data ∈ get_existing_rules (some provStore942) ∧
    (runPass src (some provStore942) response).added = [] := by
  refine ⟨?_, by decide, by decide, ?_⟩
  · rw [pass_added_nil]
    rfl
  · rw [pass_added_nil]

/-- C3 counterexample: on an unreadable rule source, extraction does not
fail with a `SourceUnavailable` error; it returns normally with an empty
rule dict (rule_processor.py lines 91-93 swallow the exception). -/
theorem claim3_counterexample :
    extract_outcome none = ExtractOutcome.ok [] ∧
    extract_outcome none ≠ ExtractOutcome.err SourceError.sourceUnavailable := by
  exact ⟨rfl, by decide⟩

/-- C3 amended: on an unreadable rule source the extraction returns the
empty rule set and the pipeline continues rather than aborting; the pass
then appends nothing and leaves the store content unchanged. -/
theorem claim3_amended (storeFile : Option (List Char)) (response : Option (List Hit)) :
    extract_paranoia_rules none = [] ∧
    (runPass none storeFile response).added = [] ∧
    (runPass none storeFile response).store = storeFile.getD [] := by
  rw [pass_added_nil]
  exact ⟨rfl, rfl, rfl⟩

/-- C6: the identifier namespacer is idempotent, and an identifier already
carrying the `999` prefix is returned unchanged. -/
theorem claim6_namespacer_idempotent (x : List Char) :
    generate_custom_rule_id (generate_custom_rule_id x) = generate_custom_rule_id x ∧
    ("999".data.isPrefixOf x = true → generate_custom_rule_id x = x) := by
  by_cases h : "999".data.isPrefixOf x = true
  · constructor
    · simp [generate_custom_rule_id, h]
    · intro _
      simp [generate_custom_rule_id, h]
  · constructor
    · simp [generate_custom_rule_id, h, pre999_append]
    · intro hx
      exact absurd hx h

/-- C6 witness: evaluated on the already-namespaced identifier 999942100
and on the fresh identifier 942100. -/
theorem claim6_witness :
    generate_custom_rule_id (generate_custom_rule_id ("942100".data)) =
      generate_custom_rule_id ("942100".data) ∧
    generate_custom_rule_id ("999942100".data) = "999942100".data := by
  exact ⟨(claim6_namespacer_idempotent ("942100".data)).1,
    (claim6_namespacer_idempotent ("999942100".data)).2 (by decide)⟩

/-- C7: within a single pass no custom identifier is appended twice — a
record later in the pass cannot re-trigger an append of an identifier just
added.  (In the coded pass the in-memory index is in fact never updated,
but no duplicate append is reachable because no append ever occurs.) -/
theorem claim7_no_duplicate_append (src storeFile : Option (List Char))
    (response : Option (List Hit)) :
    ((runPass src storeFile response).added.map RuleInfo.custom_id).Nodup ∧
    (runPass src storeFile response).added = [] := by
  rw [pass_added_nil]
  exact ⟨List.nodup_nil, rfl⟩

/-- C8: when the enforcement-point check reports not-running, the trigger
reports failure, touches neither the exclusions nor anything else of the
environment, never reaches the reload, and the store produced by the pass
is exactly the committed append result — the trigger stage cannot roll the
store back. -/
theorem claim8_trigger_failure_no_rollback (cs excl : Option (List Char)) (rOk : Bool)
    (store : List Char) (src storeFile : Option (List Char))
    (response : Option (List Hit)) :
    (update_rules ⟨false, cs, excl, rOk⟩ store).success = false ∧
    (update_rules ⟨false, cs, excl, rOk⟩ store).env = ⟨false, cs, excl, rOk⟩ ∧
    (update_rules ⟨false, cs, excl, rOk⟩ store).reloadCalled = false ∧
    (runPassFull src storeFile response ⟨false, cs, excl, rOk⟩).store =
      (runPass src storeFile response).store := by
  refine ⟨rfl, rfl, rfl, ?_⟩
  unfold runPassFull
  dsimp only
  split <;> rfl

/-- C9: a store carrying both an original identifier and its namespaced
form fails the conflict check, and the deployment update reports failure
without reaching the exclusion or reload steps. -/
theorem claim9_conflict_detected (store : List Char) (cs excl : Option (List Char))
    (rOk : Bool) (d : List Char) (hd : "999".data.isPrefixOf d = false)
    (h1 : d ∈ extract_rule_ids store)
    (h2 : ("999".data ++ d) ∈ extract_rule_ids store) :
    check_rule_id_conflicts (extract_rule_ids store) = false ∧
    update_rules ⟨true, cs, excl, rOk⟩ store = ⟨false, ⟨true, cs, excl, rOk⟩, false⟩ := by
  refine ⟨check_conflicts_false _ d hd h1 h2, ?_⟩
  exact update_rules_conflict _ store d rfl hd h1 h2

/-- C9 witness: evaluated on a store containing `id:942100` and
`id:999942100`. -/
theorem claim9_witness :
    "999".data.isPrefixOf ("942100".data) = false ∧
    "942100".data ∈ extract_rule_ids conflictStore ∧
    ("999".data ++ "942100".data) ∈ extract_rule_ids conflictStore ∧
    check_rule_id_conflicts (extract_rule_ids conflictStore) = false ∧
    update_rules ⟨true, none, some [], true⟩ conflictStore =
      ⟨false, ⟨true, none, some [], true⟩, false⟩ := by
  have h := claim9_conflict_detected conflictStore none (some []) true ("942100".data)
    (by decide) (by decide) (by decide)
  exact ⟨by decide, by decide, by decide, h.1, h.2⟩

/-- C4: for a rule block carrying a tier-3 or tier-4 tag, the weight
substitution rewrites the anomaly-score increment expression according to
the severity mapping critical → 2, warning or error → 1, notice → 0, and a
block with absent or unrecognized severity is left unchanged. -/
theorem claim4_weight_substitution (rule : List Char) (p : Char)
    (hp : (firstMatch matchPL rule).map Prod.fst = some p) :
    adjust_anomaly_score rule =
      (match firstMatch matchSev rule with
       | some sev =>
         (match severityWeight (lowerL sev.1) with
          | some w => subIncrAll p w rule
          | none => rule)
       | none => rule) := by
  have hp0 : ∃ rest, firstMatch matchPL rule = some (p, rest) := by
    cases hpl : firstMatch matchPL rule with
    | none => rw [hpl] at hp; simp at hp
    | some plm =>
      rw [hpl] at hp
      simp only [Option.map_some'] at hp
      have h1 : plm.1 = p := Option.some_inj.mp hp
      exact ⟨plm.2, by rw [← h1]⟩
  obtain ⟨rest, hpl⟩ := hp0
  unfold adjust_anomaly_score
  rw [hpl]
  cases hsev : firstMatch matchSev rule with
  | none => rfl
  | some sev =>
    dsimp only
    unfold severityWeight
    by_cases h1 : lowerL sev.1 = "critical".data
    · simp [h1]
    · by_cases h2 : lowerL sev.1 = "warning".data
      · simp [h1, h2]
      · by_cases h3 : lowerL sev.1 = "error".data
        · simp [h1, h2, h3]
        · by_cases h4 : lowerL sev.1 = "notice".data
          · simp [h1, h2, h3, h4]
          · simp [h1, h2, h3, h4]

set_option maxRecDepth 4000 in
/-- C4 witness: a tier-3 block with severity CRITICAL has its increment
expression rewritten to the constant 2. -/
theorem claim4_witness : adjust_anomaly_score demoCritRule = demoCritExpected := by
  have h := claim4_weight_substitution demoCritRule '3' (by decide)
  rw [h]
  decide

/-- C5 counterexample: the identifier rewrite is `re.sub` over all
occurrences, not exactly one substitution per rule — a block containing the
identifier-declaration pattern twice has both occurrences replaced. -/
theorem claim5_counterexample :
    groupsAll matchIdColon twoIdRule = ["942100".data, "942100".data] ∧
    subIdAll ("999942100".data) twoIdRule = twoIdRewritten ∧
    groupsAll matchIdColon twoIdRewritten =
      ["999942100".data, "999942100".data] := by
  exact ⟨by decide, by decide, by decide⟩

/-- C5 amended: the identifier rewrite substitutes `custom_id` at every
occurrence of the identifier-declaration pattern — one substitution per
occurrence, so a rule whose body declares its identifier once receives
exactly one substitution. -/
theorem claim5_substitution_per_occurrence (rule c : List Char) (hc : c ≠ [])
    (hdig : c.all Char.isDigit = true) :
    groupsAll matchIdColon (subIdAll c rule) =
      (groupsAll matchIdColon rule).map (fun _ => c) :=
  subIdAll_groups c hc hdig rule.length rule (Nat.le_refl _)

/-- C5 witness: a block with a single identifier declaration gets exactly
one substitution, carrying the custom identifier. -/
theorem claim5_witness :
    groupsAll matchIdColon (subIdAll ("999942100".data) oneIdRule) =
      ["999942100".data] := by
  have h := claim5_substitution_per_occurrence oneIdRule ("999942100".data)
    (by decide) (by decide)
  rw [h]
  decide

/-- C10: every key of the extracted rule dict carries the `999` namespace
prefix, and every block whose extracted identifier already starts with
`999` is excluded from the output entirely: its extraction step is the
identity on the accumulated dict, so it is dropped rather than passed
through unchanged. -/
theorem claim10_keys_namespaced (src : Option (List Char)) :
    ((extract_paranoia_rules src).all (fun kv => "999".data.isPrefixOf kv.1) = true) ∧
    (∀ (acc : List (List Char × List Char)) (rule d : List Char),
      (firstMatch matchIdDecl rule).map Prod.fst = some d →
      "999".data.isPrefixOf d = true →
      processBlock acc rule = acc) := by
  refine ⟨extract_keys_999 src, ?_⟩
  intro acc rule d hidm hpre
  unfold processBlock
  cases hpl : firstMatch matchPL rule with
  | none => rfl
  | some plm =>
    cases hid : firstMatch matchIdDecl rule with
    | none => rfl
    | some idm =>
      rw [hid] at hidm
      simp only [Option.map_some'] at hidm
      have h1 : idm.1 = d := Option.some_inj.mp hidm
      dsimp only
      rw [h1, if_pos hpre]

/-- C10 witness: the block carrying identifier 999123456 is dropped — its
extraction step leaves the empty dict empty, and extraction over the whole
source containing it yields no rules, all of whose keys (vacuously) carry
the prefix. -/
theorem claim10_witness :
    (extract_paranoia_rules (some demo999Block)).all
      (fun kv => "999".data.isPrefixOf kv.1) = true ∧
    processBlock [] demo999Block = [] ∧
    extract_paranoia_rules (some demo999Block) = [] := by
  have h := claim10_keys_namespaced (some demo999Block)
  exact ⟨h.1, h.2 [] demo999Block ("999123456".data) (by decide) (by decide), by decide⟩

end Modlek
